import Mathlib

/-!
Verification of the Neutron-Spectrometry reconstruction core.

Shallow embedding of `src/unfolding/source/physics_calculations.cpp`:
the response normalizer (`normalizeResponse`), the MLEM iterator
(`runMLEM`) and the MAP iterator (`runMAP`).

Modelling decisions:
* C++ `double` arithmetic is modelled by exact rational arithmetic (`ℚ`).
  Division by zero follows Lean's `x / 0 = 0` convention; the claims under
  study do not depend on IEEE non-finite propagation, which the spec lists
  as an inherited, unchecked limitation.
* `std::vector<double>` is modelled by `List ℚ`; reads `v[i]` are modelled
  by `List.getD v i 0`.  A separate checked reader (`getChk`) returning
  `Option ℚ` is used where a claim is about index bounds.
* The by-reference buffers mutated by the iterators (`spectrum`,
  `mlem_ratio`, and for MAP `energy_correction`) are threaded through a
  state record together with the read-only inputs (`measurements`,
  `nns_response`, `normalized_response`), so that frame properties (which
  vectors a call may modify) are expressible.
* The bounded `for (mlem_index = 0; mlem_index < cutoff; ...)` loop is
  modelled by structural recursion on the remaining fuel `cutoff - idx`,
  which also makes termination a theorem by construction.
-/

namespace NeutronSpectrometry

/-- Read `v[i]` on a `std::vector<double>`, with Lean's default `0` out of range. -/
def getV (v : List ℚ) (i : ℕ) : ℚ := v.getD i 0

/-- Read `system_response[m][b]`: row `m` of a matrix, then entry `b`. -/
def getM (mat : List (List ℚ)) (m b : ℕ) : ℚ := getV (mat.getD m []) b

/-- Checked vector read at a C++ `int` index: `none` exactly when the
access `v[i]` would be out of bounds (negative or past the end). -/
def getChk (v : List ℚ) (i : ℤ) : Option ℚ :=
  if 0 ≤ i ∧ i.toNat < v.length then some (getV v i.toNat) else none

/-- Embeds `normalizeResponse` (physics_calculations.cpp lines 25–43):
for each bin, sum the responses of that bin over all measurements
(a column sum of the system matrix).  The C++ function takes the matrix by
reference but never writes to it; the embedding is a pure function. -/
def normalizeResponse (num_bins num_measurements : ℕ)
    (system_response : List (List ℚ)) : List ℚ :=
  (List.range num_bins).map (fun i_bin =>
    ((List.range num_measurements).map (fun i_meas =>
      getM system_response i_meas i_bin)).sum)

/-- The mutable and read-only buffers threaded through `runMLEM`. -/
structure MLEMState where
  measurements : List ℚ
  spectrum : List ℚ
  nns_response : List (List ℚ)
  normalized_response : List ℚ
  mlem_ratio : List ℚ
  deriving Repr, DecidableEq

/-- One iteration of the `runMLEM` loop body (lines 252–295): clear and
refill `mlem_ratio`, forward-project, take measured/estimated ratios,
back-project the correction, and apply the multiplicative update to
`spectrum`.  The read-only fields are returned unchanged, mirroring that
the C++ body never assigns to them. -/
def mlemBody (num_measurements num_bins : ℕ) (s : MLEMState) : MLEMState :=
  let mlem_estimate : List ℚ :=
    (List.range num_measurements).map (fun i_meas =>
      ((List.range num_bins).map (fun i_bin =>
        getM s.nns_response i_meas i_bin * getV s.spectrum i_bin)).sum)
  let mlem_ratio : List ℚ :=
    (List.range num_measurements).map (fun i_meas =>
      getV s.measurements i_meas / getV mlem_estimate i_meas)
  let mlem_correction : List ℚ :=
    (List.range num_bins).map (fun i_bin =>
      ((List.range num_measurements).map (fun i_meas =>
        getM s.nns_response i_meas i_bin * getV mlem_ratio i_meas)).sum)
  let spectrum' : List ℚ :=
    (List.range num_bins).map (fun i_bin =>
      getV s.spectrum i_bin * getV mlem_correction i_bin /
        getV s.normalized_response i_bin)
  { s with spectrum := spectrum', mlem_ratio := mlem_ratio }

/-- The continuation test of lines 299–305 (identical at lines 387–393):
`true` iff some measurement's ratio satisfies
`ratio[m] >= 1+error || ratio[m] <= 1-error`. -/
def continueCheck (error : ℚ) (num_measurements : ℕ) (ratio : List ℚ) : Bool :=
  (List.range num_measurements).any (fun i_meas =>
    decide (1 + error ≤ getV ratio i_meas) || decide (getV ratio i_meas ≤ 1 - error))

/-- The `runMLEM` loop, by recursion on the remaining fuel
`cutoff - mlem_index`; `idx` is the current value of `mlem_index`.
Returns the final `mlem_index` and the final buffer state. -/
def runMLEMAux (error : ℚ) (num_measurements num_bins : ℕ) :
    ℕ → ℕ → MLEMState → ℕ × MLEMState
  | 0, idx, s => (idx, s)
  | fuel + 1, idx, s =>
      let s' := mlemBody num_measurements num_bins s
      if continueCheck error num_measurements s'.mlem_ratio then
        runMLEMAux error num_measurements num_bins fuel (idx + 1) s'
      else
        (idx, s')

/-- Embeds `runMLEM` (lines 248–312).  `cutoff` is a C++ `int`; the loop
executes at most `max cutoff 0` iterations, so the fuel is `cutoff.toNat`. -/
def runMLEM (cutoff : ℤ) (error : ℚ) (num_measurements num_bins : ℕ)
    (s : MLEMState) : ℕ × MLEMState :=
  runMLEMAux error num_measurements num_bins cutoff.toNat 0 s

/-- The `k`-fold application of the MLEM loop body, used to speak about the
state at the start of iteration `k`. -/
def mlemIter (num_measurements num_bins : ℕ) : ℕ → MLEMState → MLEMState
  | 0, s => s
  | k + 1, s => mlemIter num_measurements num_bins k (mlemBody num_measurements num_bins s)

/-- The MAP energy-correction computation (lines 368–377): clear the
buffer, push the first-bin term, push one term per interior bin
`1 <= i_bin < num_bins - 1` (the C++ bound `num_bins - 1` is `int`
arithmetic, so the interior loop is vacuous whenever `num_bins <= 2`,
which `ℕ` truncated subtraction `num_bins - 2` reproduces), then push the
last-bin term.  Index reads mirror `spectrum[...]` with the default-`0`
reader; bounds are treated by `energyCorrectionChk` below. -/
def energyCorrection (beta : ℚ) (num_bins : ℕ) (spectrum : List ℚ) : List ℚ :=
  [beta * (getV spectrum 0 - getV spectrum 1) ^ 2]
    ++ ((List.range (num_bins - 2)).map (fun k =>
        beta * ((getV spectrum (k + 1) - getV spectrum k) ^ 2 +
          (getV spectrum (k + 1) - getV spectrum (k + 2)) ^ 2)))
    ++ [beta * (getV spectrum (num_bins - 1) - getV spectrum (num_bins - 2)) ^ 2]

/-- The bounds-checked interior term of the energy correction at
`i_bin = k + 1` (line 374): reads `spectrum[b]`, `spectrum[b-1]`,
`spectrum[b]`, `spectrum[b+1]` through `getChk`. -/
def ecInterior (beta : ℚ) (spectrum : List ℚ) (k : ℕ) : Option ℚ := do
  let b : ℤ := (k : ℤ) + 1
  pure (beta * (((← getChk spectrum b) - (← getChk spectrum (b - 1))) ^ 2 +
    ((← getChk spectrum b) - (← getChk spectrum (b + 1))) ^ 2))

/-- Bounds-checked version of `energyCorrection`, with every `spectrum[i]`
read performed through `getChk` at the C++ `int` index (so the edge reads
`spectrum[num_bins-1]` and `spectrum[num_bins-2]` are at possibly negative
indices): `none` exactly when some read of lines 370–377 is out of bounds. -/
def energyCorrectionChk (beta : ℚ) (num_bins : ℤ) (spectrum : List ℚ) :
    Option (List ℚ) := do
  let first := beta * ((← getChk spectrum 0) - (← getChk spectrum 1)) ^ 2
  let interior ← (List.range (num_bins - 1 - 1).toNat).mapM (ecInterior beta spectrum)
  let last := beta *
    ((← getChk spectrum (num_bins - 1)) - (← getChk spectrum (num_bins - 2))) ^ 2
  pure ([first] ++ interior ++ [last])

/-- The buffers threaded through `runMAP`: those of `runMLEM` plus the
by-reference `energy_correction` output. -/
structure MAPState where
  measurements : List ℚ
  spectrum : List ℚ
  nns_response : List (List ℚ)
  normalized_response : List ℚ
  mlem_ratio : List ℚ
  energy_correction : List ℚ
  deriving Repr, DecidableEq

/-- Forget the `energy_correction` buffer, keeping the buffers `runMLEM`
also has. -/
def MAPState.toMLEM (s : MAPState) : MLEMState :=
  { measurements := s.measurements
    spectrum := s.spectrum
    nns_response := s.nns_response
    normalized_response := s.normalized_response
    mlem_ratio := s.mlem_ratio }

/-- One iteration of the `runMAP` loop body (lines 327–383): identical to
`mlemBody` through the correction factors, then recompute the energy
correction from the pre-update spectrum and divide the update by
`normalized_response[b] + energy_correction[b]`. -/
def mapBody (beta : ℚ) (num_measurements num_bins : ℕ) (s : MAPState) : MAPState :=
  let mlem_estimate : List ℚ :=
    (List.range num_measurements).map (fun i_meas =>
      ((List.range num_bins).map (fun i_bin =>
        getM s.nns_response i_meas i_bin * getV s.spectrum i_bin)).sum)
  let mlem_ratio : List ℚ :=
    (List.range num_measurements).map (fun i_meas =>
      getV s.measurements i_meas / getV mlem_estimate i_meas)
  let mlem_correction : List ℚ :=
    (List.range num_bins).map (fun i_bin =>
      ((List.range num_measurements).map (fun i_meas =>
        getM s.nns_response i_meas i_bin * getV mlem_ratio i_meas)).sum)
  let energy_correction : List ℚ := energyCorrection beta num_bins s.spectrum
  let spectrum' : List ℚ :=
    (List.range num_bins).map (fun i_bin =>
      getV s.spectrum i_bin * getV mlem_correction i_bin /
        (getV s.normalized_response i_bin + getV energy_correction i_bin))
  { s with spectrum := spectrum', mlem_ratio := mlem_ratio,
           energy_correction := energy_correction }

/-- The `runMAP` loop, same shape as `runMLEMAux` (lines 326–397). -/
def runMAPAux (beta error : ℚ) (num_measurements num_bins : ℕ) :
    ℕ → ℕ → MAPState → ℕ × MAPState
  | 0, idx, s => (idx, s)
  | fuel + 1, idx, s =>
      let s' := mapBody beta num_measurements num_bins s
      if continueCheck error num_measurements s'.mlem_ratio then
        runMAPAux beta error num_measurements num_bins fuel (idx + 1) s'
      else
        (idx, s')

/-- Embeds `runMAP` (lines 323–399). -/
def runMAP (beta : ℚ) (cutoff : ℤ) (error : ℚ) (num_measurements num_bins : ℕ)
    (s : MAPState) : ℕ × MAPState :=
  runMAPAux beta error num_measurements num_bins cutoff.toNat 0 s

/-- The `k`-fold application of the MAP loop body. -/
def mapIter (beta : ℚ) (num_measurements num_bins : ℕ) : ℕ → MAPState → MAPState
  | 0, s => s
  | k + 1, s =>
      mapIter beta num_measurements num_bins k (mapBody beta num_measurements num_bins s)

/-- A concrete single-measurement, single-bin input (the spec's
"MLEM single-bin reduction" scenario), used to instantiate theorems. -/
def exMLEM : MLEMState :=
  { measurements := [5], spectrum := [1], nns_response := [[1]],
    normalized_response := [1], mlem_ratio := [] }

/-- The same concrete input with a MAP energy-correction buffer. -/
def exMAP : MAPState :=
  { measurements := [5], spectrum := [1], nns_response := [[1]],
    normalized_response := [1], mlem_ratio := [], energy_correction := [] }

/-- A concrete two-measurement, two-bin MAP input. -/
def exMAP2 : MAPState :=
  { measurements := [3, 7], spectrum := [1, 2], nns_response := [[1, 2], [3, 4]],
    normalized_response := [4, 6], mlem_ratio := [], energy_correction := [] }

/-- A concrete input whose spectrum entry is zero. -/
def exZeroMLEM : MLEMState :=
  { measurements := [1], spectrum := [0], nns_response := [[1]],
    normalized_response := [1], mlem_ratio := [] }

/-- The zero-spectrum input with a MAP energy-correction buffer. -/
def exZeroMAP : MAPState :=
  { measurements := [1], spectrum := [0], nns_response := [[1]],
    normalized_response := [1], mlem_ratio := [], energy_correction := [] }

-- Basic evaluation lemmas for the embedding.

theorem getV_range_map (f : ℕ → ℚ) {i n : ℕ} (h : i < n) :
    getV ((List.range n).map f) i = f i := by
  simp [getV, List.getD_eq_getElem?_getD, List.getElem?_map, List.getElem?_range h]

theorem getV_range_map_ge (f : ℕ → ℚ) {i n : ℕ} (h : n ≤ i) :
    getV ((List.range n).map f) i = 0 := by
  rw [getV, List.getD_eq_getElem?_getD, List.getElem?_eq_none (by simpa using h)]
  rfl

theorem getV_eq_zero_of_forall_zero {l : List ℚ} (h : ∀ x ∈ l, x = 0) (i : ℕ) :
    getV l i = 0 := by
  rw [getV, List.getD_eq_getElem?_getD]
  cases hx : l[i]? with
  | none => rfl
  | some x => exact h x (List.getElem?_mem hx)

theorem mlemBody_frame (nm nb : ℕ) (s : MLEMState) :
    (mlemBody nm nb s).measurements = s.measurements ∧
    (mlemBody nm nb s).nns_response = s.nns_response ∧
    (mlemBody nm nb s).normalized_response = s.normalized_response :=
  ⟨rfl, rfl, rfl⟩

theorem mapBody_frame (beta : ℚ) (nm nb : ℕ) (s : MAPState) :
    (mapBody beta nm nb s).measurements = s.measurements ∧
    (mapBody beta nm nb s).nns_response = s.nns_response ∧
    (mapBody beta nm nb s).normalized_response = s.normalized_response :=
  ⟨rfl, rfl, rfl⟩

theorem runMLEMAux_frame (error : ℚ) (nm nb : ℕ) :
    ∀ (fuel idx : ℕ) (s : MLEMState),
      (runMLEMAux error nm nb fuel idx s).2.measurements = s.measurements ∧
      (runMLEMAux error nm nb fuel idx s).2.nns_response = s.nns_response ∧
      (runMLEMAux error nm nb fuel idx s).2.normalized_response = s.normalized_response
  | 0, idx, s => ⟨rfl, rfl, rfl⟩
  | fuel + 1, idx, s => by
      by_cases hc : continueCheck error nm (mlemBody nm nb s).mlem_ratio = true
      · simp only [runMLEMAux, hc, if_true]
        exact runMLEMAux_frame error nm nb fuel (idx + 1) (mlemBody nm nb s)
      · simp only [runMLEMAux, hc, Bool.false_eq_true, if_false]
        exact ⟨rfl, rfl, rfl⟩

theorem runMAPAux_frame (beta error : ℚ) (nm nb : ℕ) :
    ∀ (fuel idx : ℕ) (s : MAPState),
      (runMAPAux beta error nm nb fuel idx s).2.measurements = s.measurements ∧
      (runMAPAux beta error nm nb fuel idx s).2.nns_response = s.nns_response ∧
      (runMAPAux beta error nm nb fuel idx s).2.normalized_response = s.normalized_response
  | 0, idx, s => ⟨rfl, rfl, rfl⟩
  | fuel + 1, idx, s => by
      by_cases hc : continueCheck error nm (mapBody beta nm nb s).mlem_ratio = true
      · simp only [runMAPAux, hc, if_true]
        exact runMAPAux_frame beta error nm nb fuel (idx + 1) (mapBody beta nm nb s)
      · simp only [runMAPAux, hc, Bool.false_eq_true, if_false]
        exact ⟨rfl, rfl, rfl⟩

theorem runMLEMAux_fst_le (error : ℚ) (nm nb : ℕ) :
    ∀ (fuel idx : ℕ) (s : MLEMState),
      (runMLEMAux error nm nb fuel idx s).1 ≤ idx + fuel
  | 0, idx, s => le_rfl
  | fuel + 1, idx, s => by
      by_cases hc : continueCheck error nm (mlemBody nm nb s).mlem_ratio = true
      · have := runMLEMAux_fst_le error nm nb fuel (idx + 1) (mlemBody nm nb s)
        simp only [runMLEMAux, hc, if_true]
        omega
      · simp only [runMLEMAux, hc, Bool.false_eq_true, if_false]
        omega

theorem runMAPAux_fst_le (beta error : ℚ) (nm nb : ℕ) :
    ∀ (fuel idx : ℕ) (s : MAPState),
      (runMAPAux beta error nm nb fuel idx s).1 ≤ idx + fuel
  | 0, idx, s => le_rfl
  | fuel + 1, idx, s => by
      by_cases hc : continueCheck error nm (mapBody beta nm nb s).mlem_ratio = true
      · have := runMAPAux_fst_le beta error nm nb fuel (idx + 1) (mapBody beta nm nb s)
        simp only [runMAPAux, hc, if_true]
        omega
      · simp only [runMAPAux, hc, Bool.false_eq_true, if_false]
        omega

theorem continueCheck_eq_false_iff (error : ℚ) (nm : ℕ) (ratio : List ℚ) :
    continueCheck error nm ratio = false ↔
      ∀ m < nm, 1 - error < getV ratio m ∧ getV ratio m < 1 + error := by
  simp only [continueCheck, Bool.eq_false_iff, ne_eq, List.any_eq_true, List.mem_range,
    Bool.or_eq_true, decide_eq_true_eq, not_exists, not_and, not_or, not_le]
  constructor
  · intro h m hm
    exact ⟨(h m hm).2, (h m hm).1⟩
  · intro h m hm
    exact ⟨(h m hm).2, (h m hm).1⟩

theorem runMLEMAux_fst_of_forall_continue (error : ℚ) (nm nb : ℕ) :
    ∀ (fuel idx : ℕ) (s : MLEMState),
      (∀ k < fuel,
        continueCheck error nm (mlemBody nm nb (mlemIter nm nb k s)).mlem_ratio = true) →
      (runMLEMAux error nm nb fuel idx s).1 = idx + fuel
  | 0, idx, s, _ => rfl
  | fuel + 1, idx, s, h => by
      have h0 : continueCheck error nm (mlemBody nm nb s).mlem_ratio = true :=
        h 0 (Nat.succ_pos _)
      simp only [runMLEMAux, h0, if_true]
      have hrec := runMLEMAux_fst_of_forall_continue error nm nb fuel (idx + 1)
        (mlemBody nm nb s) (fun k hk => by
          have hk1 := h (k + 1) (Nat.succ_lt_succ hk)
          simpa only [mlemIter] using hk1)
      omega

theorem runMAPAux_fst_of_forall_continue (beta error : ℚ) (nm nb : ℕ) :
    ∀ (fuel idx : ℕ) (s : MAPState),
      (∀ k < fuel,
        continueCheck error nm
          (mapBody beta nm nb (mapIter beta nm nb k s)).mlem_ratio = true) →
      (runMAPAux beta error nm nb fuel idx s).1 = idx + fuel
  | 0, idx, s, _ => rfl
  | fuel + 1, idx, s, h => by
      have h0 : continueCheck error nm (mapBody beta nm nb s).mlem_ratio = true :=
        h 0 (Nat.succ_pos _)
      simp only [runMAPAux, h0, if_true]
      have hrec := runMAPAux_fst_of_forall_continue beta error nm nb fuel (idx + 1)
        (mapBody beta nm nb s) (fun k hk => by
          have hk1 := h (k + 1) (Nat.succ_lt_succ hk)
          simpa only [mapIter] using hk1)
      omega

theorem energyCorrection_beta_zero (nb : ℕ) (sp : List ℚ) (i : ℕ) :
    getV (energyCorrection 0 nb sp) i = 0 := by
  apply getV_eq_zero_of_forall_zero
  intro x hx
  simp only [energyCorrection, zero_mul, List.cons_append, List.mem_cons, List.mem_append,
    List.mem_map, List.mem_range, List.mem_singleton, List.not_mem_nil, or_false] at hx
  aesop

theorem mapBody_beta_zero (nm nb : ℕ) (t : MAPState) :
    (mapBody 0 nm nb t).toMLEM = mlemBody nm nb t.toMLEM := by
  simp only [mapBody, mlemBody, MAPState.toMLEM, MLEMState.mk.injEq, true_and, and_true]
  exact List.map_congr_left (fun i_bin _ => by
    rw [energyCorrection_beta_zero, add_zero])

theorem runMAPAux_beta_zero (error : ℚ) (nm nb : ℕ) :
    ∀ (fuel idx : ℕ) (t : MAPState),
      (runMAPAux 0 error nm nb fuel idx t).1 = (runMLEMAux error nm nb fuel idx t.toMLEM).1 ∧
      (runMAPAux 0 error nm nb fuel idx t).2.toMLEM =
        (runMLEMAux error nm nb fuel idx t.toMLEM).2
  | 0, idx, t => ⟨rfl, rfl⟩
  | fuel + 1, idx, t => by
      have hb := mapBody_beta_zero nm nb t
      have hratio : (mapBody 0 nm nb t).mlem_ratio = (mlemBody nm nb t.toMLEM).mlem_ratio :=
        congrArg MLEMState.mlem_ratio hb
      by_cases hc : continueCheck error nm (mapBody 0 nm nb t).mlem_ratio = true
      · have hc' : continueCheck error nm (mlemBody nm nb t.toMLEM).mlem_ratio = true := by
          rw [← hratio]; exact hc
        simp only [runMAPAux, runMLEMAux, hc, hc', if_true]
        have hrec := runMAPAux_beta_zero error nm nb fuel (idx + 1) (mapBody 0 nm nb t)
        rwa [hb] at hrec
      · have hc' : ¬ continueCheck error nm (mlemBody nm nb t.toMLEM).mlem_ratio = true := by
          rw [← hratio]; exact hc
        simp only [runMAPAux, runMLEMAux, hc, hc', Bool.false_eq_true, if_false]
        exact ⟨trivial, hb⟩

theorem mapM_option_eq_some {α β : Type} (f : α → Option β) (g : α → β) :
    ∀ l : List α, (∀ a ∈ l, f a = some (g a)) → l.mapM f = some (l.map g) := by
  intro l
  induction l with
  | nil => intro _; rfl
  | cons a l ih =>
      intro h
      rw [List.mapM_cons, h a (List.mem_cons_self a l),
        ih (fun x hx => h x (List.mem_cons_of_mem a hx))]
      rfl

theorem energyCorrection_length (beta : ℚ) (nb : ℕ) (sp : List ℚ) (h2 : 2 ≤ nb) :
    (energyCorrection beta nb sp).length = nb := by
  simp only [energyCorrection, List.length_append, List.length_map, List.length_range,
    List.length_cons, List.length_nil]
  omega

theorem energyCorrection_getV_zero (beta : ℚ) (nb : ℕ) (sp : List ℚ) :
    getV (energyCorrection beta nb sp) 0 =
      beta * (getV sp 0 - getV sp 1) ^ 2 := rfl

theorem energyCorrection_getV_interior (beta : ℚ) (nb : ℕ) (sp : List ℚ)
    {b : ℕ} (h1 : 1 ≤ b) (h2 : b < nb - 1) :
    getV (energyCorrection beta nb sp) b =
      beta * ((getV sp b - getV sp (b - 1)) ^ 2 + (getV sp b - getV sp (b + 1)) ^ 2) := by
  obtain ⟨k, rfl⟩ : ∃ k, b = k + 1 := ⟨b - 1, by omega⟩
  rw [energyCorrection, getV, List.singleton_append]
  rw [List.getD_append _ _ _ (k + 1)
    (by simp only [List.length_cons, List.length_map, List.length_range]; omega)]
  rw [List.getD_cons_succ]
  have := getV_range_map (fun k =>
    beta * ((getV sp (k + 1) - getV sp k) ^ 2 +
      (getV sp (k + 1) - getV sp (k + 2)) ^ 2)) (show k < nb - 2 by omega)
  rw [getV] at this
  rw [this]
  simp only [Nat.add_sub_cancel]

theorem energyCorrection_getV_last (beta : ℚ) (nb : ℕ) (sp : List ℚ) (h2 : 2 ≤ nb) :
    getV (energyCorrection beta nb sp) (nb - 1) =
      beta * (getV sp (nb - 1) - getV sp (nb - 2)) ^ 2 := by
  obtain ⟨k, hk⟩ : ∃ k, nb - 1 = k + 1 := ⟨nb - 2, by omega⟩
  rw [energyCorrection, getV, hk, List.singleton_append]
  rw [List.getD_append_right _ _ _ _
    (by simp only [List.length_cons, List.length_map, List.length_range]; omega)]
  simp only [List.length_cons, List.length_map, List.length_range]
  have hlen : k + 1 - (nb - 2 + 1) = 0 := by omega
  rw [hlen, List.getD_cons_zero]

theorem mlemBody_spectrum_zero (nm nb b : ℕ) (s : MLEMState)
    (h : getV s.spectrum b = 0) : getV (mlemBody nm nb s).spectrum b = 0 := by
  simp only [mlemBody]
  by_cases hb : b < nb
  · rw [getV_range_map _ hb, h, zero_mul, zero_div]
  · exact getV_range_map_ge _ (by omega)

theorem mapBody_spectrum_zero (beta : ℚ) (nm nb b : ℕ) (t : MAPState)
    (h : getV t.spectrum b = 0) : getV (mapBody beta nm nb t).spectrum b = 0 := by
  simp only [mapBody]
  by_cases hb : b < nb
  · rw [getV_range_map _ hb, h, zero_mul, zero_div]
  · exact getV_range_map_ge _ (by omega)

theorem mlemIter_spectrum_zero (nm nb b : ℕ) :
    ∀ (k : ℕ) (s : MLEMState), getV s.spectrum b = 0 →
      getV (mlemIter nm nb k s).spectrum b = 0
  | 0, _, h => h
  | k + 1, s, h =>
      mlemIter_spectrum_zero nm nb b k (mlemBody nm nb s)
        (mlemBody_spectrum_zero nm nb b s h)

theorem mapIter_spectrum_zero (beta : ℚ) (nm nb b : ℕ) :
    ∀ (k : ℕ) (t : MAPState), getV t.spectrum b = 0 →
      getV (mapIter beta nm nb k t).spectrum b = 0
  | 0, _, h => h
  | k + 1, t, h =>
      mapIter_spectrum_zero beta nm nb b k (mapBody beta nm nb t)
        (mapBody_spectrum_zero beta nm nb b t h)

theorem getChk_eq_some {sp : List ℚ} {i : ℤ} (h0 : 0 ≤ i) (hi : i.toNat < sp.length) :
    getChk sp i = some (getV sp i.toNat) := by
  rw [getChk, if_pos ⟨h0, hi⟩]

theorem getChk_eq_none {sp : List ℚ} {i : ℤ} (h : ¬(0 ≤ i ∧ i.toNat < sp.length)) :
    getChk sp i = none := by
  rw [getChk, if_neg h]

/-- C1: every `runMLEM` iteration forward-projects the current spectrum
(`estimated[m] = Σ_b ResponseMatrix[m][b] * spectrum[b]`), takes the
ratios `ratio[m] = measured[m] / estimated[m]`, back-projects them into
`correction[b] = Σ_m ResponseMatrix[m][b] * ratio[m]`, and replaces
`spectrum[b]` by `spectrum[b] * correction[b] / normalization[b]`, in that
data-flow order: the exported ratio is built from the pre-update spectrum
and the spectrum update consumes that ratio. -/
theorem C1_mlem_iteration_formulas (nm nb : ℕ) (s : MLEMState) (m b : ℕ)
    (hm : m < nm) (hb : b < nb) :
    getV (mlemBody nm nb s).mlem_ratio m =
      getV s.measurements m /
        ((List.range nb).map (fun i_bin =>
          getM s.nns_response m i_bin * getV s.spectrum i_bin)).sum ∧
    getV (mlemBody nm nb s).spectrum b =
      getV s.spectrum b *
        ((List.range nm).map (fun i_meas =>
          getM s.nns_response i_meas b *
            getV (mlemBody nm nb s).mlem_ratio i_meas)).sum /
        getV s.normalized_response b := by
  constructor
  · simp only [mlemBody]
    rw [getV_range_map _ hm, getV_range_map _ hm]
  · simp only [mlemBody]
    rw [getV_range_map _ hb, getV_range_map _ hb]

/-- Witness for C1 at the concrete single-bin input. -/
theorem C1_mlem_iteration_formulas_witness :
    getV (mlemBody 1 1 exMLEM).mlem_ratio 0 =
      getV exMLEM.measurements 0 /
        ((List.range 1).map (fun i_bin =>
          getM exMLEM.nns_response 0 i_bin * getV exMLEM.spectrum i_bin)).sum :=
  (C1_mlem_iteration_formulas 1 1 exMLEM 0 0 (by decide) (by decide)).1

/-- C2: the `runMLEM` loop (and identically the `runMAP` loop) leaves its
iteration early only when the continuation test is `false`, and that test
is `false` exactly when every measurement's ratio lies strictly inside
`(1-error, 1+error)`; a ratio equal to either boundary (the `>=`/`<=`
comparisons) keeps the loop going. -/
theorem C2_strict_convergence_band (error beta : ℚ) (nm nb fuel idx : ℕ)
    (ratio : List ℚ) (s : MLEMState) (t : MAPState) :
    (continueCheck error nm ratio = false ↔
      ∀ m < nm, 1 - error < getV ratio m ∧ getV ratio m < 1 + error) ∧
    (runMLEMAux error nm nb (fuel + 1) idx s =
      if continueCheck error nm (mlemBody nm nb s).mlem_ratio then
        runMLEMAux error nm nb fuel (idx + 1) (mlemBody nm nb s)
      else (idx, mlemBody nm nb s)) ∧
    (runMAPAux beta error nm nb (fuel + 1) idx t =
      if continueCheck error nm (mapBody beta nm nb t).mlem_ratio then
        runMAPAux beta error nm nb fuel (idx + 1) (mapBody beta nm nb t)
      else (idx, mapBody beta nm nb t)) :=
  ⟨continueCheck_eq_false_iff error nm ratio, rfl, rfl⟩

/-- Witness for C2: with tolerance `1/20`, a ratio exactly `1 + 1/20`
forces continuation. -/
theorem C2_strict_convergence_band_witness :
    continueCheck (1/20) 1 [21/20] = true := by
  rcases Bool.eq_false_or_eq_true (continueCheck (1/20) 1 [21/20]) with ht | hf
  · exact ht
  · exfalso
    have hband :=
      ((C2_strict_convergence_band (1/20) 0 1 1 0 0 [21/20] exMLEM exMAP).1.mp hf)
        0 (by decide)
    have hv : getV [21/20] 0 = 21/20 := rfl
    rw [hv] at hband
    have hcontra : ¬ (21/20 : ℚ) < 1 + 1/20 := by norm_num
    exact hcontra hband.2

/-- C3: for a positive cap both loops terminate (they are total functions
of fuel `cutoff.toNat`) with a count never exceeding the cap; if the
continuation test already fails after the first pass the count is `0`, and
if the test succeeds on every pass up to the cap the count is exactly the
cap. -/
theorem C3_iteration_cap (cutoff : ℤ) (hpos : 0 < cutoff) (error beta : ℚ)
    (nm nb : ℕ) (s : MLEMState) (t : MAPState) :
    (runMLEM cutoff error nm nb s).1 ≤ cutoff.toNat ∧
    (runMAP beta cutoff error nm nb t).1 ≤ cutoff.toNat ∧
    (continueCheck error nm (mlemBody nm nb s).mlem_ratio = false →
      (runMLEM cutoff error nm nb s).1 = 0) ∧
    (continueCheck error nm (mapBody beta nm nb t).mlem_ratio = false →
      (runMAP beta cutoff error nm nb t).1 = 0) ∧
    ((∀ k < cutoff.toNat, continueCheck error nm
        (mlemBody nm nb (mlemIter nm nb k s)).mlem_ratio = true) →
      (runMLEM cutoff error nm nb s).1 = cutoff.toNat) ∧
    ((∀ k < cutoff.toNat, continueCheck error nm
        (mapBody beta nm nb (mapIter beta nm nb k t)).mlem_ratio = true) →
      (runMAP beta cutoff error nm nb t).1 = cutoff.toNat) := by
  obtain ⟨n, hn⟩ : ∃ n, cutoff.toNat = n + 1 := ⟨cutoff.toNat - 1, by omega⟩
  refine ⟨?_, ?_, ?_, ?_, ?_, ?_⟩
  · simpa using runMLEMAux_fst_le error nm nb cutoff.toNat 0 s
  · simpa using runMAPAux_fst_le beta error nm nb cutoff.toNat 0 t
  · intro h
    rw [runMLEM, hn]
    simp only [runMLEMAux, h, Bool.false_eq_true, if_false]
  · intro h
    rw [runMAP, hn]
    simp only [runMAPAux, h, Bool.false_eq_true, if_false]
  · intro h
    simpa [runMLEM] using runMLEMAux_fst_of_forall_continue error nm nb cutoff.toNat 0 s h
  · intro h
    simpa [runMAP] using runMAPAux_fst_of_forall_continue beta error nm nb cutoff.toNat 0 t h

/-- Witness for C3 with cap `2` at the concrete single-bin input. -/
theorem C3_iteration_cap_witness :
    (runMLEM 2 (1/100) 1 1 exMLEM).1 ≤ (2 : ℤ).toNat :=
  (C3_iteration_cap 2 (by decide) (1/100) 0 1 1 exMLEM exMAP).1

/-- C4: every `runMAP` iteration with `num_bins ≥ 2` rebuilds the
energy-correction vector from the pre-update spectrum — first bin
`beta*(spectrum[0]-spectrum[1])^2`, interior bins
`beta*((spectrum[b]-spectrum[b-1])^2 + (spectrum[b]-spectrum[b+1])^2)`,
last bin `beta*(spectrum[N-1]-spectrum[N-2])^2`, one entry per bin — and
the update divides by `normalization[b] + energy_correction[b]`. -/
theorem C4_map_energy_correction (beta : ℚ) (nm nb : ℕ) (h2 : 2 ≤ nb)
    (t : MAPState) (b : ℕ) (hb : b < nb) :
    (mapBody beta nm nb t).energy_correction = energyCorrection beta nb t.spectrum ∧
    (energyCorrection beta nb t.spectrum).length = nb ∧
    getV (energyCorrection beta nb t.spectrum) 0 =
      beta * (getV t.spectrum 0 - getV t.spectrum 1) ^ 2 ∧
    (∀ b', 1 ≤ b' → b' < nb - 1 →
      getV (energyCorrection beta nb t.spectrum) b' =
        beta * ((getV t.spectrum b' - getV t.spectrum (b' - 1)) ^ 2 +
          (getV t.spectrum b' - getV t.spectrum (b' + 1)) ^ 2)) ∧
    getV (energyCorrection beta nb t.spectrum) (nb - 1) =
      beta * (getV t.spectrum (nb - 1) - getV t.spectrum (nb - 2)) ^ 2 ∧
    getV (mapBody beta nm nb t).spectrum b =
      getV t.spectrum b *
        ((List.range nm).map (fun i_meas =>
          getM t.nns_response i_meas b *
            getV (mapBody beta nm nb t).mlem_ratio i_meas)).sum /
        (getV t.normalized_response b +
          getV (energyCorrection beta nb t.spectrum) b) := by
  refine ⟨rfl, energyCorrection_length beta nb t.spectrum h2,
    energyCorrection_getV_zero beta nb t.spectrum,
    fun b' h1 h2 => energyCorrection_getV_interior beta nb t.spectrum h1 h2,
    energyCorrection_getV_last beta nb t.spectrum h2, ?_⟩
  simp only [mapBody]
  rw [getV_range_map _ hb, getV_range_map _ hb]

/-- Witness for C4 at a concrete two-bin input. -/
theorem C4_map_energy_correction_witness :
    (mapBody 2 1 2 exMAP2).energy_correction = energyCorrection 2 2 exMAP2.spectrum :=
  (C4_map_energy_correction 2 1 2 (by decide) exMAP2 0 (by decide)).1

/-- C5: with `beta = 0` the MAP run is the MLEM run on the same inputs —
same returned iteration count and same final spectrum (the model's
arithmetic is exact, so "within floating-point tolerance" sharpens to
equality). -/
theorem C5_map_beta_zero_is_mlem (cutoff : ℤ) (error : ℚ) (nm nb : ℕ)
    (t : MAPState) :
    (runMAP 0 cutoff error nm nb t).1 = (runMLEM cutoff error nm nb t.toMLEM).1 ∧
    (runMAP 0 cutoff error nm nb t).2.spectrum =
      (runMLEM cutoff error nm nb t.toMLEM).2.spectrum := by
  have h := runMAPAux_beta_zero error nm nb cutoff.toNat 0 t
  exact ⟨h.1, congrArg MLEMState.spectrum h.2⟩

/-- C6: the multiplicative update locks zeros in place: a spectrum entry
that is `0` at the start of an iteration of either loop is `0` after that
iteration and after every later one (here proved with no sign conditions
at all, which subsumes the claim's non-negativity proviso). -/
theorem C6_monotone_zero_lock (nm nb b : ℕ) (beta : ℚ) (s : MLEMState)
    (t : MAPState) (hs : getV s.spectrum b = 0) (ht : getV t.spectrum b = 0) :
    (∀ k, getV (mlemIter nm nb k s).spectrum b = 0) ∧
    (∀ k, getV (mapIter beta nm nb k t).spectrum b = 0) :=
  ⟨fun k => mlemIter_spectrum_zero nm nb b k s hs,
   fun k => mapIter_spectrum_zero beta nm nb b k t ht⟩

/-- Witness for C6: the zero entry survives three iterations. -/
theorem C6_monotone_zero_lock_witness :
    getV (mlemIter 1 1 3 exZeroMLEM).spectrum 0 = 0 :=
  (C6_monotone_zero_lock 1 1 0 1 exZeroMLEM exZeroMAP rfl rfl).1 3

/-- C7: `normalizeResponse` returns the vector of column sums of the
response matrix — length `num_bins`, entry `i` the sum of
`ResponseMatrix[m][i]` over all measurements — and on `[[1,2],[3,4]]`
returns `[4, 6]`.  The C++ function takes the matrix by reference but
never writes to it; here it is a pure function of its arguments, so it has
no effect on them. -/
theorem C7_normalize_response (nb nm : ℕ) (M : List (List ℚ)) (i : ℕ)
    (hi : i < nb) :
    (normalizeResponse nb nm M).length = nb ∧
    getV (normalizeResponse nb nm M) i =
      ((List.range nm).map (fun i_meas => getM M i_meas i)).sum ∧
    normalizeResponse 2 2 [[1, 2], [3, 4]] = [4, 6] := by
  refine ⟨by simp [normalizeResponse], getV_range_map _ hi, ?_⟩
  simp [normalizeResponse, getM, getV, List.range_succ]
  norm_num

/-- Witness for C7: the concrete column sums. -/
theorem C7_normalize_response_witness :
    normalizeResponse 2 2 [[1, 2], [3, 4]] = [4, 6] :=
  (C7_normalize_response 2 2 [[1, 2], [3, 4]] 0 (by decide)).2.2

/-- C9: a `runMLEM` or `runMAP` call leaves the response matrix, the
measurement vector and the normalization vector exactly as they were;
only `spectrum`, `mlem_ratio` (and for MAP `energy_correction`) are
rewritten. -/
theorem C9_read_only_inputs (cutoff : ℤ) (error beta : ℚ) (nm nb : ℕ)
    (s : MLEMState) (t : MAPState) :
    (runMLEM cutoff error nm nb s).2.measurements = s.measurements ∧
    (runMLEM cutoff error nm nb s).2.nns_response = s.nns_response ∧
    (runMLEM cutoff error nm nb s).2.normalized_response = s.normalized_response ∧
    (runMAP beta cutoff error nm nb t).2.measurements = t.measurements ∧
    (runMAP beta cutoff error nm nb t).2.nns_response = t.nns_response ∧
    (runMAP beta cutoff error nm nb t).2.normalized_response = t.normalized_response := by
  obtain ⟨h1, h2, h3⟩ := runMLEMAux_frame error nm nb cutoff.toNat 0 s
  obtain ⟨h4, h5, h6⟩ := runMAPAux_frame beta error nm nb cutoff.toNat 0 t
  exact ⟨h1, h2, h3, h4, h5, h6⟩

/-- C10: a non-positive cutoff skips the loop entirely: both functions
return iteration count `0` and every buffer — spectrum, ratio, and for MAP
the energy correction — exactly as passed in (the ratio buffer is not even
cleared, since the clear happens inside the loop). -/
theorem C10_nonpositive_cutoff (cutoff : ℤ) (hc : cutoff ≤ 0) (error beta : ℚ)
    (nm nb : ℕ) (s : MLEMState) (t : MAPState) :
    runMLEM cutoff error nm nb s = (0, s) ∧
    runMAP beta cutoff error nm nb t = (0, t) := by
  have h : cutoff.toNat = 0 := by omega
  rw [runMLEM, runMAP, h]
  exact ⟨rfl, rfl⟩

/-- Witness for C10 at cutoff `-3`. -/
theorem C10_nonpositive_cutoff_witness :
    runMLEM (-3) (1/100) 1 1 exMLEM = (0, exMLEM) :=
  (C10_nonpositive_cutoff (-3) (by decide) (1/100) 1 1 1 exMLEM exMAP).1

/-- C8: with `num_bins ≥ 2` every `spectrum[...]` read of the
energy-correction computation is within bounds — the bounds-checked
computation succeeds and agrees with the unchecked one, producing exactly
one entry per bin (edge terms applied once, so no double-application) —
while for `num_bins < 2` the interior loop is vacuous and some edge read
(`spectrum[1]`, or `spectrum[num_bins-2]` at a negative `int` index) is
out of bounds, so the requirement `num_bins ≥ 2` is genuine. -/
theorem C8_energy_correction_bounds (beta : ℚ) (nb : ℕ) (sp : List ℚ)
    (hlen : sp.length = nb) :
    (2 ≤ nb →
      energyCorrectionChk beta (nb : ℤ) sp = some (energyCorrection beta nb sp) ∧
      (energyCorrection beta nb sp).length = nb) ∧
    (nb < 2 → ((nb : ℤ) - 1 - 1).toNat = 0 ∧
      energyCorrectionChk beta (nb : ℤ) sp = none) := by
  constructor
  · intro h2
    refine ⟨?_, energyCorrection_length beta nb sp h2⟩
    have hcount : ((nb : ℤ) - 1 - 1).toNat = nb - 2 := by omega
    have g0 : getChk sp 0 = some (getV sp 0) :=
      getChk_eq_some (by norm_num) (by omega)
    have g1 : getChk sp 1 = some (getV sp 1) :=
      getChk_eq_some (by norm_num) (by omega)
    have gA : getChk sp ((nb : ℤ) - 1) = some (getV sp (nb - 1)) := by
      have h := @getChk_eq_some sp ((nb : ℤ) - 1) (by omega) (by omega)
      have ht : ((nb : ℤ) - 1).toNat = nb - 1 := by omega
      rwa [ht] at h
    have gB : getChk sp ((nb : ℤ) - 2) = some (getV sp (nb - 2)) := by
      have h := @getChk_eq_some sp ((nb : ℤ) - 2) (by omega) (by omega)
      have ht : ((nb : ℤ) - 2).toNat = nb - 2 := by omega
      rwa [ht] at h
    have hmap : (List.range ((nb : ℤ) - 1 - 1).toNat).mapM (ecInterior beta sp) =
        some ((List.range (nb - 2)).map (fun k =>
          beta * ((getV sp (k + 1) - getV sp k) ^ 2 +
            (getV sp (k + 1) - getV sp (k + 2)) ^ 2))) := by
      rw [hcount]
      apply mapM_option_eq_some
      intro k hk
      have hk2 : k < nb - 2 := List.mem_range.mp hk
      have e1 : getChk sp ((k : ℤ) + 1) = some (getV sp (k + 1)) := by
        have h := @getChk_eq_some sp ((k : ℤ) + 1) (by omega) (by omega)
        have ht : ((k : ℤ) + 1).toNat = k + 1 := by omega
        rwa [ht] at h
      have e2 : getChk sp ((k : ℤ) + 1 - 1) = some (getV sp k) := by
        have h := @getChk_eq_some sp ((k : ℤ) + 1 - 1) (by omega) (by omega)
        have ht : ((k : ℤ) + 1 - 1).toNat = k := by omega
        rwa [ht] at h
      have e3 : getChk sp ((k : ℤ) + 1 + 1) = some (getV sp (k + 2)) := by
        have h := @getChk_eq_some sp ((k : ℤ) + 1 + 1) (by omega) (by omega)
        have ht : ((k : ℤ) + 1 + 1).toNat = k + 2 := by omega
        rwa [ht] at h
      simp only [ecInterior, e1, e2, e3, Option.bind_eq_bind, Option.some_bind,
        Option.pure_def]
    rw [energyCorrectionChk]
    simp only [g0, g1, hmap, gA, gB, Option.bind_eq_bind, Option.some_bind,
      Option.pure_def, Option.some.injEq]
    rfl
  · intro hlt
    have hvac : ((nb : ℤ) - 1 - 1).toNat = 0 := by omega
    refine ⟨hvac, ?_⟩
    rw [energyCorrectionChk]
    interval_cases nb
    · have g0 : getChk sp 0 = none := getChk_eq_none (by omega)
      simp only [g0, Option.bind_eq_bind, Option.none_bind]
    · have g0 : getChk sp 0 = some (getV sp 0) :=
        getChk_eq_some (by norm_num) (by omega)
      have g1 : getChk sp 1 = none := getChk_eq_none (by omega)
      simp only [g0, g1, Option.bind_eq_bind, Option.some_bind, Option.none_bind]

/-- Witness for C8 at a concrete two-bin spectrum. -/
theorem C8_energy_correction_bounds_witness :
    energyCorrectionChk 1 2 [1, 2] = some (energyCorrection 1 2 [1, 2]) :=
  ((C8_energy_correction_bounds 1 2 [1, 2] rfl).1 (by decide)).1

end NeutronSpectrometry
